import Mathlib

/-!
Shallow embedding of the traders-portal backend (Django app `company`):
the company search endpoint, the per-user watchlist endpoint, and the bulk
CSV importer, as implemented in `company/views.py`, `company/models.py`
and `company/management/commands/import_companies.py`.

Strings are modelled by Lean `String`; case folding, substring matching
and lexicographic comparison are implemented over the underlying
character lists so that every definition evaluates by kernel reduction.
-/

namespace TradersPortal

/-! ## Character-level string helpers

`Python str.strip`, Django `icontains` (case-insensitive substring) and
SQLite `ORDER BY company_name` (byte-wise lexicographic) modelled over
`List Char`. -/

/-- Strip leading and trailing whitespace from a character list
(Python `str.strip()` as used in `CompanySearchView.get`). -/
def stripChars (cs : List Char) : List Char :=
  ((cs.dropWhile Char.isWhitespace).reverse.dropWhile Char.isWhitespace).reverse

/-- Lower-cased character list of a string (case folding step of Django
`icontains`). -/
def lowerChars (s : String) : List Char :=
  s.data.map Char.toLower

/-- Check whether `pat` occurs at the head of `hay`. -/
def listStarts : List Char → List Char → Bool
  | [], _ => true
  | _ :: _, [] => false
  | a :: as, b :: bs => a = b && listStarts as bs

/-- Check whether `pat` occurs as a contiguous sublist of `hay`. -/
def listSub (pat hay : List Char) : Bool :=
  match hay with
  | [] => pat.isEmpty
  | _ :: t => listStarts pat hay || listSub pat t

/-- Django `field__icontains=query`: case-insensitive substring match. -/
def icontains (hay pat : String) : Bool :=
  listSub (lowerChars pat) (lowerChars hay)

/-- Lexicographic order on character lists by character code
(SQLite BINARY collation used by `order_by`). -/
def lexLe : List Char → List Char → Bool
  | [], _ => true
  | _ :: _, [] => false
  | a :: as, b :: bs =>
    decide (a.toNat < b.toNat) || (a.toNat == b.toNat && lexLe as bs)

/-! ## Data model (`company/models.py`) -/

/-- Row of the `companies` table: `Company` model. `symbol` is unique;
`scripcode` is nullable and unique among non-null values. Timestamps are
omitted (no specified behaviour depends on them). -/
structure Company where
  id : Nat
  company_name : String
  symbol : String
  scripcode : Option String
deriving Repr, DecidableEq

/-- Row of the `watchlist` table: `Watchlist` model. `userId` and
`companyId` are the two foreign keys; `(userId, companyId)` is declared
`unique_together`. `addedAt` models the `added_at` timestamp. -/
structure WEntry where
  id : Nat
  userId : Nat
  companyId : Nat
  addedAt : Nat
deriving Repr, DecidableEq

/-- Database state seen by the endpoints, plus the surrogate-id counter
and a clock supplying `added_at` for new rows. -/
structure St where
  companies : List Company
  watchlist : List WEntry
  nextEntryId : Nat
  now : Nat
deriving Repr, DecidableEq

/-- Uniqueness invariant of the `watchlist` table:
`unique_together = ('user', 'company')`. -/
def PairUnique (l : List WEntry) : Prop :=
  l.Pairwise (fun a b => ¬(a.userId = b.userId ∧ a.companyId = b.companyId))

/-! ## Search endpoint (`CompanySearchView.get`) -/

/-- Response of `GET /search/`. -/
inductive SearchResp where
  | badRequest (error : String)
  | ok (count : Nat) (results : List Company)
deriving Repr, DecidableEq

/-- HTTP status of a search response. -/
def SearchResp.status : SearchResp → Nat
  | .badRequest _ => 400
  | .ok _ _ => 200

/-- Results list carried by a search response (empty on the error path). -/
def SearchResp.results : SearchResp → List Company
  | .badRequest _ => []
  | .ok _ rs => rs

/-- Condition `Q(company_name__icontains=query) | Q(symbol__icontains=query)`. -/
def matchesQuery (q : String) (c : Company) : Bool :=
  icontains c.company_name q || icontains c.symbol q

/-- Ordering used by `order_by('company_name')`. -/
def nameLe (a b : Company) : Prop :=
  lexLe a.company_name.data b.company_name.data = true

instance : DecidableRel nameLe := fun _ _ =>
  inferInstanceAs (Decidable (_ = true))

/-- Value of `request.GET.get('q', '').strip()`: `none` models an absent
parameter. -/
def normalizeQuery (rawQ : Option String) : String :=
  String.mk (stripChars (rawQ.getD "").data)

/-- Embedding of `CompanySearchView.get`: reject a blank query with 400,
otherwise filter by name-or-symbol substring match, order by
`company_name`, cap at 50 rows and report the capped count. -/
def searchGet (companies : List Company) (rawQ : Option String) : SearchResp :=
  let query := normalizeQuery rawQ
  if query = "" then
    .badRequest "Query parameter 'q' is required"
  else
    let results :=
      (List.insertionSort nameLe (companies.filter (matchesQuery query))).take 50
    .ok results.length results

/-! ## Watchlist endpoint (`WatchlistView`) -/

/-- Raw `company_id` field of the request body as seen by
`AddToWatchlistSerializer`: present-and-integer, present-but-invalid, or
missing. -/
inductive BodyField where
  | missing
  | invalid
  | valid (i : Int)
deriving Repr, DecidableEq

/-- Outcome of `serializer.is_valid()` + `validated_data['company_id']`. -/
def validateCompanyId : BodyField → Option Int
  | .valid i => some i
  | _ => none

/-- Response of `POST /watchlist/`. -/
inductive PostResp where
  | badRequest
  | notFound (error : String)
  | created (message : String) (company : Company)
  | alreadyExists (message : String)
deriving Repr, DecidableEq

/-- HTTP status of a POST response. -/
def PostResp.status : PostResp → Nat
  | .badRequest => 400
  | .notFound _ => 404
  | .created _ _ => 201
  | .alreadyExists _ => 200

/-- Response of `DELETE /watchlist/`. -/
inductive DeleteResp where
  | badRequest
  | ok (message : String)
  | notFound (error : String)
deriving Repr, DecidableEq

/-- HTTP status of a DELETE response. -/
def DeleteResp.status : DeleteResp → Nat
  | .badRequest => 400
  | .ok _ => 200
  | .notFound _ => 404

/-- Lookup `Company.objects.get(id=company_id)` (the validated id is an
arbitrary integer, stored ids are naturals). -/
def findCompany (companies : List Company) (i : Int) : Option Company :=
  companies.find? (fun c => decide ((c.id : Int) = i))

/-- Filter used by `get_or_create(user=.., company=..)`. -/
def isPairOf (u cid : Nat) (e : WEntry) : Bool :=
  decide (e.userId = u ∧ e.companyId = cid)

/-- Filter used by `Watchlist.objects.filter(user=.., company_id=..)` in
`delete` (the body integer is compared against the stored key). -/
def matchesDelete (u : Nat) (i : Int) (e : WEntry) : Bool :=
  decide (e.userId = u ∧ (e.companyId : Int) = i)

/-- Ordering used by `order_by('-added_at')` (most recent first). -/
def addedGe (a b : WEntry) : Prop :=
  b.addedAt ≤ a.addedAt

instance : DecidableRel addedGe := fun _ _ =>
  inferInstanceAs (Decidable (_ ≤ _))

/-- Embedding of `WatchlistView.get`: the caller's entries, most recently
added first. -/
def watchListGet (s : St) (u : Nat) : List WEntry :=
  List.insertionSort addedGe (s.watchlist.filter (fun e => decide (e.userId = u)))

/-- Embedding of `WatchlistView.post`: validate the body, look up the
company, then `get_or_create` the `(user, company)` pair. Returns the
response together with the successor state. -/
def watchPost (s : St) (u : Nat) (f : BodyField) : PostResp × St :=
  match validateCompanyId f with
  | none => (.badRequest, s)
  | some i =>
    match findCompany s.companies i with
    | none => (.notFound "Company not found", s)
    | some c =>
      match s.watchlist.find? (isPairOf u c.id) with
      | some _ => (.alreadyExists "Company is already in your watchlist", s)
      | none =>
        (.created "Company added to watchlist successfully" c,
          { s with
            watchlist := s.watchlist ++ [⟨s.nextEntryId, u, c.id, s.now⟩],
            nextEntryId := s.nextEntryId + 1 })

/-- Embedding of `WatchlistView.delete`: validate the body, delete the
caller's matching rows, answer by the deleted count. -/
def watchDelete (s : St) (u : Nat) (f : BodyField) : DeleteResp × St :=
  match validateCompanyId f with
  | none => (.badRequest, s)
  | some i =>
    let deletedCount := s.watchlist.countP (matchesDelete u i)
    let s' := { s with watchlist := s.watchlist.filter (fun e => !matchesDelete u i e) }
    if 0 < deletedCount then
      (.ok "Company removed from watchlist successfully", s')
    else
      (.notFound "Company not found in your watchlist", s')

/-! ## Request-level step relation over the watchlist endpoint -/

/-- One authenticated watchlist request. -/
inductive WatchAction where
  | list
  | add (f : BodyField)
  | remove (f : BodyField)
deriving Repr, DecidableEq

/-- Request: caller identity plus the action. -/
structure Req where
  user : Nat
  action : WatchAction
deriving Repr, DecidableEq

/-- State transition of a single watchlist request (`GET` is read-only). -/
def step (s : St) (r : Req) : St :=
  match r.action with
  | .list => s
  | .add f => (watchPost s r.user f).2
  | .remove f => (watchDelete s r.user f).2

/-- State after serving a sequence of watchlist requests. -/
def runReqs (s : St) (rs : List Req) : St :=
  rs.foldl step s

/-! ## Bulk importer (`import_companies.py`) -/

/-- One CSV row as read by `csv.DictReader` (the three header columns). -/
structure Row where
  company_name : String
  symbol : String
  scripcode : String
deriving Repr, DecidableEq

/-- Unsaved `Company(...)` instance built by the importer (no id yet). -/
structure CompanyData where
  company_name : String
  symbol : String
  scripcode : Option String
deriving Repr, DecidableEq

/-- Record constructed by `Company(company_name=.., symbol=..,
scripcode=row['scripcode'] if row['scripcode'] else None)`. -/
def toCompanyData (r : Row) : CompanyData :=
  ⟨r.company_name, r.symbol, if r.scripcode = "" then none else some r.scripcode⟩

/-- Row-to-record step of `Command.handle`: a row with an empty `symbol`
is skipped, an empty `scripcode` becomes `None`. -/
def rowToCompany (r : Row) : Option CompanyData :=
  if r.symbol = "" then none else some (toCompanyData r)

/-- Uniqueness-constraint check of the `companies` table against the
current contents: `symbol` unique, `scripcode` unique among non-null. -/
def conflicts (store : List CompanyData) (c : CompanyData) : Bool :=
  store.any (fun x => x.symbol = c.symbol) ||
    match c.scripcode with
    | some sc => store.any (fun x => decide (x.scripcode = some sc))
    | none => false

/-- Per-row semantics of an insert with conflicts ignored: the row is
appended unless it violates a uniqueness constraint. -/
def insertIgnore (store : List CompanyData) (c : CompanyData) : List CompanyData :=
  if conflicts store c then store else store ++ [c]

/-- `bulk_create(batch, ignore_conflicts=True)`: rows are processed in
order, each seeing the rows already inserted. -/
def bulkCreateIgnore (store : List CompanyData) (batch : List CompanyData) : List CompanyData :=
  batch.foldl insertIgnore store

/-- Buffered loop of `Command.handle`: accumulate converted rows, flush
every 500 records, flush the remainder at end of input. -/
def importLoop : List Row → List CompanyData → List CompanyData → List CompanyData
  | [], buf, store => bulkCreateIgnore store buf
  | r :: rs, buf, store =>
    match rowToCompany r with
    | none => importLoop rs buf store
    | some c =>
      let buf' := buf ++ [c]
      if 500 ≤ buf'.length then importLoop rs [] (bulkCreateIgnore store buf')
      else importLoop rs buf' store

/-- Whole import run of `Command.handle` over the parsed CSV rows. -/
def runImport (rows : List Row) (store : List CompanyData) : List CompanyData :=
  importLoop rows [] store

/-! ## Order lemmas for the two sort relations -/

/-- Transitivity of the byte-wise lexicographic order. -/
theorem lexLe_trans : ∀ x y z : List Char,
    lexLe x y = true → lexLe y z = true → lexLe x z = true := by
  intro x
  induction x with
  | nil => intro y z _ _; simp [lexLe]
  | cons a as ih =>
    intro y z h1 h2
    cases y with
    | nil => simp [lexLe] at h1
    | cons b bs =>
      cases z with
      | nil => simp [lexLe] at h2
      | cons c cs =>
        simp only [lexLe, Bool.or_eq_true, Bool.and_eq_true, decide_eq_true_eq,
          beq_iff_eq] at h1 h2 ⊢
        rcases h1 with h1 | ⟨hab, h1⟩
        · rcases h2 with h2 | ⟨hbc, _⟩
          · exact Or.inl (Nat.lt_trans h1 h2)
          · exact Or.inl (hbc ▸ h1)
        · rcases h2 with h2 | ⟨hbc, h2⟩
          · exact Or.inl (hab ▸ h2)
          · exact Or.inr ⟨hab.trans hbc, ih bs cs h1 h2⟩

/-- Totality of the byte-wise lexicographic order. -/
theorem lexLe_total : ∀ x y : List Char, lexLe x y = true ∨ lexLe y x = true := by
  intro x
  induction x with
  | nil => intro y; simp [lexLe]
  | cons a as ih =>
    intro y
    cases y with
    | nil => simp [lexLe]
    | cons b bs =>
      simp only [lexLe, Bool.or_eq_true, Bool.and_eq_true, decide_eq_true_eq,
        beq_iff_eq]
      rcases Nat.lt_trichotomy a.toNat b.toNat with h | h | h
      · exact Or.inl (Or.inl h)
      · rcases ih bs with h' | h'
        · exact Or.inl (Or.inr ⟨h, h'⟩)
        · exact Or.inr (Or.inr ⟨h.symm, h'⟩)
      · exact Or.inr (Or.inl h)

instance : IsTrans Company nameLe :=
  ⟨fun _ _ _ h1 h2 => lexLe_trans _ _ _ h1 h2⟩

instance : IsTotal Company nameLe :=
  ⟨fun a b => lexLe_total a.company_name.data b.company_name.data⟩

instance : IsTrans WEntry addedGe :=
  ⟨fun _ _ _ h1 h2 => le_trans h2 h1⟩

instance : IsTotal WEntry addedGe :=
  ⟨fun a b => (Nat.le_total b.addedAt a.addedAt).imp id id⟩

/-! ## Concrete sample data (used to instantiate the theorems) -/

/-- Sample company table from the specification's worked example. -/
def sampleCompanies : List Company :=
  [⟨1, "Cipla Ltd", "CIPLA", some "500087"⟩,
   ⟨2, "Reliance Industries", "RELIANCE", some "500325"⟩]

/-! ## Search endpoint theorems -/

/-- Results of a non-blank search, unfolded. -/
theorem searchGet_results_eq (companies : List Company) (rawQ : Option String)
    (hq : normalizeQuery rawQ ≠ "") :
    (searchGet companies rawQ).results =
      (List.insertionSort nameLe
        (companies.filter (matchesQuery (normalizeQuery rawQ)))).take 50 := by
  simp only [searchGet, SearchResp.results]
  rw [if_neg hq]

/-- C2: for every non-blank query, every returned company matches the
query on name or symbol; when at most 50 companies match, every matching
company is returned; the results are sorted ascending by `company_name`;
and at most 50 rows are returned. -/
theorem search_matches_sorted_capped (companies : List Company) (q : String)
    (hq : normalizeQuery (some q) ≠ "") :
    (∀ c ∈ (searchGet companies (some q)).results,
        matchesQuery (normalizeQuery (some q)) c = true) ∧
    (companies.countP (matchesQuery (normalizeQuery (some q))) ≤ 50 →
      ∀ c ∈ companies, matchesQuery (normalizeQuery (some q)) c = true →
        c ∈ (searchGet companies (some q)).results) ∧
    List.Sorted nameLe (searchGet companies (some q)).results ∧
    (searchGet companies (some q)).results.length ≤ 50 := by
  rw [searchGet_results_eq companies (some q) hq]
  set nq := normalizeQuery (some q) with hnq
  set L := companies.filter (matchesQuery nq) with hL
  have hperm := List.perm_insertionSort nameLe L
  refine ⟨?_, ?_, ?_, ?_⟩
  · intro c hc
    have hmem : c ∈ L :=
      hperm.mem_iff.mp ((List.take_sublist 50 _).subset hc)
    exact (List.mem_filter.mp hmem).2
  · intro hcount c hc hmatch
    have hlen : (List.insertionSort nameLe L).length ≤ 50 := by
      rw [hperm.length_eq, hL, ← List.countP_eq_length_filter]
      exact hcount
    rw [List.take_of_length_le hlen]
    exact hperm.mem_iff.mpr (List.mem_filter.mpr ⟨hc, hmatch⟩)
  · exact List.Pairwise.sublist (List.take_sublist 50 _)
      (List.sorted_insertionSort nameLe L)
  · rw [List.length_take]
    exact min_le_left _ _

/-- Witness for C2 at the sample table and the query `"cip"`. -/
theorem search_matches_sorted_capped_witness :
    normalizeQuery (some "cip") ≠ "" ∧
    (⟨1, "Cipla Ltd", "CIPLA", some "500087"⟩ : Company) ∈
      (searchGet sampleCompanies (some "cip")).results ∧
    List.Sorted nameLe (searchGet sampleCompanies (some "cip")).results ∧
    (searchGet sampleCompanies (some "cip")).results.length ≤ 50 := by
  refine ⟨by decide, ?_, ?_, ?_⟩
  · exact (search_matches_sorted_capped sampleCompanies "cip" (by decide)).2.1
      (by decide) _ (by decide) (by decide)
  · exact (search_matches_sorted_capped sampleCompanies "cip" (by decide)).2.2.1
  · exact (search_matches_sorted_capped sampleCompanies "cip" (by decide)).2.2.2

/-- C10: a successful search response carries `count` equal to the length
of the returned (capped) results list, and that length is the minimum of
the total number of matching companies and 50 — not the total itself. -/
theorem search_count_is_capped_length (companies : List Company) (q : String)
    (hq : normalizeQuery (some q) ≠ "") :
    searchGet companies (some q) =
      .ok (searchGet companies (some q)).results.length
        (searchGet companies (some q)).results ∧
    (searchGet companies (some q)).results.length =
      min (companies.countP (matchesQuery (normalizeQuery (some q)))) 50 := by
  constructor
  · simp only [searchGet, SearchResp.results]
    rw [if_neg hq]
  · rw [searchGet_results_eq companies (some q) hq, List.length_take,
      (List.perm_insertionSort nameLe _).length_eq, ← List.countP_eq_length_filter]
    exact Nat.min_comm _ _

/-- Witness for C10 at the sample table and the query `"cip"`. -/
theorem search_count_is_capped_length_witness :
    searchGet sampleCompanies (some "cip") =
      .ok (searchGet sampleCompanies (some "cip")).results.length
        (searchGet sampleCompanies (some "cip")).results ∧
    (searchGet sampleCompanies (some "cip")).results.length =
      min (sampleCompanies.countP (matchesQuery (normalizeQuery (some "cip")))) 50 :=
  search_count_is_capped_length sampleCompanies "cip" (by decide)

/-- C6: a request whose `q` parameter is absent or blank after trimming
gets the 400 missing-parameter error, with a response independent of the
company table (no lookup is performed); every other request gets a 200. -/
theorem search_blank_is_400 (rawQ : Option String) :
    (normalizeQuery rawQ = "" →
      ∀ companies, searchGet companies rawQ =
        .badRequest "Query parameter 'q' is required") ∧
    (SearchResp.badRequest "Query parameter 'q' is required").status = 400 ∧
    (normalizeQuery rawQ ≠ "" →
      ∀ companies, (searchGet companies rawQ).status = 200) := by
  refine ⟨?_, rfl, ?_⟩
  · intro hblank companies
    simp only [searchGet]
    rw [if_pos hblank]
  · intro hq companies
    simp only [searchGet]
    rw [if_neg hq]
    rfl

/-- Witness for C6: a whitespace-only query gets the 400 error regardless
of the table, a non-blank query a 200. -/
theorem search_blank_is_400_witness :
    searchGet sampleCompanies (some "   ") =
      .badRequest "Query parameter 'q' is required" ∧
    (searchGet sampleCompanies (some "cip")).status = 200 :=
  ⟨(search_blank_is_400 (some "   ")).1 (by decide) sampleCompanies,
   (search_blank_is_400 (some "cip")).2.2 (by decide) sampleCompanies⟩

/-! ## Watchlist endpoint theorems -/

/-- Sample database state: the sample companies, an empty watchlist. -/
def sampleSt : St :=
  ⟨sampleCompanies, [], 0, 0⟩

/-- A predicate that can hold on at most one element of a pairwise
"not both" list occurs at most once. -/
theorem countP_le_one_of_pairwise {α : Type} (p : α → Bool) {l : List α}
    (h : l.Pairwise (fun a b => ¬(p a = true ∧ p b = true))) :
    l.countP p ≤ 1 := by
  induction l with
  | nil => simp
  | cons a l ih =>
    rw [List.countP_cons]
    rcases List.pairwise_cons.mp h with ⟨ha, htail⟩
    by_cases hpa : p a = true
    · have hz : l.countP p = 0 :=
        List.countP_eq_zero.mpr (fun b hb hpb => ha b hb ⟨hpa, hpb⟩)
      simp [hz, hpa]
    · simp only [hpa, if_false, Nat.add_zero]
      exact ih htail

/-- Under the `(user, company)` uniqueness invariant, at most one row
matches a delete filter. -/
theorem countP_matchesDelete_le_one (u : Nat) (i : Int) {l : List WEntry}
    (h : PairUnique l) :
    l.countP (matchesDelete u i) ≤ 1 := by
  refine countP_le_one_of_pairwise _ (h.imp ?_)
  intro a b hab ⟨hpa, hpb⟩
  rw [matchesDelete, decide_eq_true_eq] at hpa hpb
  exact hab ⟨hpa.1.trans hpb.1.symm, by omega⟩

/-- C7: a POST whose `company_id` is missing or not an integer gets a 400
and leaves the state untouched; a validated id naming no company gets the
404 "Company not found" and leaves the state untouched. -/
theorem post_validation_and_lookup_errors (s : St) (u : Nat) :
    (∀ f : BodyField, f = .missing ∨ f = .invalid →
      watchPost s u f = (.badRequest, s)) ∧
    (PostResp.badRequest).status = 400 ∧
    (∀ i : Int, findCompany s.companies i = none →
      watchPost s u (.valid i) = (.notFound "Company not found", s)) ∧
    (PostResp.notFound "Company not found").status = 404 := by
  refine ⟨?_, rfl, ?_, rfl⟩
  · rintro f (rfl | rfl) <;> rfl
  · intro i hfind
    simp [watchPost, validateCompanyId, hfind]

/-- Witness for C7 at the sample state. -/
theorem post_validation_and_lookup_errors_witness :
    watchPost sampleSt 7 .missing = (.badRequest, sampleSt) ∧
    watchPost sampleSt 7 (.valid 99) = (.notFound "Company not found", sampleSt) :=
  ⟨(post_validation_and_lookup_errors sampleSt 7).1 .missing (Or.inl rfl),
   (post_validation_and_lookup_errors sampleSt 7).2.2.1 99 (by decide)⟩

/-- C1: adding a company a user does not yet watch answers 201 with the
embedded company and creates exactly one row for the pair; repeating the
same request answers 200 "already exists" and changes nothing, leaving
exactly one row for the pair. -/
theorem add_is_idempotent (s : St) (u : Nat) (i : Int) (c : Company)
    (hfind : findCompany s.companies i = some c)
    (h0 : s.watchlist.countP (isPairOf u c.id) = 0) :
    (watchPost s u (.valid i)).1 =
      .created "Company added to watchlist successfully" c ∧
    (watchPost s u (.valid i)).1.status = 201 ∧
    (watchPost s u (.valid i)).2.watchlist.length = s.watchlist.length + 1 ∧
    (watchPost s u (.valid i)).2.watchlist.countP (isPairOf u c.id) = 1 ∧
    (watchPost (watchPost s u (.valid i)).2 u (.valid i)).1 =
      .alreadyExists "Company is already in your watchlist" ∧
    (watchPost (watchPost s u (.valid i)).2 u (.valid i)).1.status = 200 ∧
    (watchPost (watchPost s u (.valid i)).2 u (.valid i)).2 =
      (watchPost s u (.valid i)).2 := by
  have hnone : s.watchlist.find? (isPairOf u c.id) = none :=
    List.find?_eq_none.mpr (fun e he hp => List.countP_eq_zero.mp h0 e he hp)
  have hpair : isPairOf u c.id ⟨s.nextEntryId, u, c.id, s.now⟩ = true := by
    simp [isPairOf]
  have hstep : watchPost s u (.valid i) =
      (.created "Company added to watchlist successfully" c,
        { s with
          watchlist := s.watchlist ++ [⟨s.nextEntryId, u, c.id, s.now⟩],
          nextEntryId := s.nextEntryId + 1 }) := by
    simp [watchPost, validateCompanyId, hfind, hnone]
  have hcount1 : (watchPost s u (.valid i)).2.watchlist.countP (isPairOf u c.id) = 1 := by
    rw [hstep]
    simp [List.countP_append, h0, List.countP_cons, hpair]
  have hfind2 : (watchPost s u (.valid i)).2.watchlist.find? (isPairOf u c.id) =
      some ⟨s.nextEntryId, u, c.id, s.now⟩ := by
    rw [hstep]
    rw [List.find?_append, hnone]
    simp [hpair]
  have hstep2 : watchPost (watchPost s u (.valid i)).2 u (.valid i) =
      (.alreadyExists "Company is already in your watchlist",
        (watchPost s u (.valid i)).2) := by
    have hcomp : (watchPost s u (.valid i)).2.companies = s.companies := by
      rw [hstep]
    conv_lhs => rw [watchPost]
    simp only [validateCompanyId, hcomp, hfind, hfind2]
  refine ⟨by rw [hstep], by rw [hstep]; rfl, ?_, hcount1, by rw [hstep2],
    by rw [hstep2]; rfl, by rw [hstep2]⟩
  rw [hstep]
  simp

/-- Witness for C1: user 7 adds company 1 twice at the sample state. -/
theorem add_is_idempotent_witness :
    (watchPost sampleSt 7 (.valid 1)).1.status = 201 ∧
    (watchPost sampleSt 7 (.valid 1)).2.watchlist.countP (isPairOf 7 1) = 1 ∧
    (watchPost (watchPost sampleSt 7 (.valid 1)).2 7 (.valid 1)).1.status = 200 ∧
    (watchPost (watchPost sampleSt 7 (.valid 1)).2 7 (.valid 1)).2 =
      (watchPost sampleSt 7 (.valid 1)).2 := by
  have h := add_is_idempotent sampleSt 7 1
    ⟨1, "Cipla Ltd", "CIPLA", some "500087"⟩ (by decide) (by decide)
  exact ⟨h.2.1, h.2.2.2.1, h.2.2.2.2.2.1, h.2.2.2.2.2.2⟩

/-- Successor state of a validated DELETE, unfolded: the caller's
matching rows are removed whatever the response is. -/
theorem watchDelete_snd_valid (s : St) (u : Nat) (i : Int) :
    (watchDelete s u (.valid i)).2 =
      { s with watchlist := s.watchlist.filter (fun e => !matchesDelete u i e) } := by
  simp only [watchDelete, validateCompanyId]
  split <;> rfl

/-- Watchlist rows left behind by a validated DELETE. -/
theorem watchDelete_watchlist_valid (s : St) (u : Nat) (i : Int) :
    (watchDelete s u (.valid i)).2.watchlist =
      s.watchlist.filter (fun e => !matchesDelete u i e) := by
  rw [watchDelete_snd_valid]

/-- C3: under the pair-uniqueness invariant, a DELETE naming a company
the caller watches answers 200 and removes exactly one row (the caller's
row for that company, companies untouched); a DELETE naming a company
the caller does not watch answers the 404 "not in your watchlist" error
and leaves the state unchanged. -/
theorem delete_removes_exactly_one_or_404 (s : St) (u : Nat) (i : Int)
    (hinv : PairUnique s.watchlist) :
    ((∃ e ∈ s.watchlist, matchesDelete u i e = true) →
      (watchDelete s u (.valid i)).1 =
        .ok "Company removed from watchlist successfully" ∧
      (watchDelete s u (.valid i)).1.status = 200 ∧
      s.watchlist.length = (watchDelete s u (.valid i)).2.watchlist.length + 1 ∧
      (∀ e ∈ (watchDelete s u (.valid i)).2.watchlist, matchesDelete u i e = false) ∧
      (watchDelete s u (.valid i)).2.companies = s.companies) ∧
    ((∀ e ∈ s.watchlist, matchesDelete u i e = false) →
      (watchDelete s u (.valid i)).1 =
        .notFound "Company not found in your watchlist" ∧
      (watchDelete s u (.valid i)).1.status = 404 ∧
      (watchDelete s u (.valid i)).2 = s) := by
  have hq : ∀ a : WEntry,
      (decide ¬(matchesDelete u i a = true)) = !matchesDelete u i a := by
    intro a; cases h : matchesDelete u i a <;> simp [h]
  constructor
  · intro hex
    have hpos : 0 < s.watchlist.countP (matchesDelete u i) :=
      List.countP_pos_iff.mpr hex
    have hone : s.watchlist.countP (matchesDelete u i) = 1 :=
      le_antisymm (countP_matchesDelete_le_one u i hinv) hpos
    have hresp : (watchDelete s u (.valid i)).1 =
        .ok "Company removed from watchlist successfully" := by
      simp only [watchDelete, validateCompanyId]
      rw [if_pos hpos]
    refine ⟨hresp, by rw [hresp]; rfl, ?_, ?_, by rw [watchDelete_snd_valid]⟩
    · rw [watchDelete_watchlist_valid]
      have hsplit := List.length_eq_countP_add_countP (matchesDelete u i) s.watchlist
      have hrest : s.watchlist.countP (fun a => decide ¬(matchesDelete u i a = true)) =
          (s.watchlist.filter (fun e => !matchesDelete u i e)).length := by
        rw [List.countP_eq_length_filter]
        exact congrArg List.length (List.filter_congr (fun a _ => hq a))
      omega
    · intro e he
      rw [watchDelete_watchlist_valid] at he
      have := (List.mem_filter.mp he).2
      simpa using this
  · intro hall
    have hz : s.watchlist.countP (matchesDelete u i) = 0 :=
      List.countP_eq_zero.mpr (fun a ha => by simp [hall a ha])
    have hfilter : s.watchlist.filter (fun e => !matchesDelete u i e) = s.watchlist :=
      List.filter_eq_self.mpr (fun a ha => by rw [hall a ha]; rfl)
    have hresp : (watchDelete s u (.valid i)).1 =
        .notFound "Company not found in your watchlist" := by
      simp only [watchDelete, validateCompanyId]
      rw [hz]
      rfl
    refine ⟨hresp, by rw [hresp]; rfl, ?_⟩
    rw [watchDelete_snd_valid, hfilter]

/-- Witness for C3: at a state where user 7 watches company 1, deleting
company 1 answers 200 removing the row, deleting company 2 answers 404
unchanged. -/
theorem delete_removes_exactly_one_or_404_witness :
    (watchDelete ⟨sampleCompanies, [⟨0, 7, 1, 0⟩], 1, 1⟩ 7 (.valid 1)).1.status = 200 ∧
    (watchDelete ⟨sampleCompanies, [⟨0, 7, 1, 0⟩], 1, 1⟩ 7 (.valid 1)).2.watchlist.length + 1 = 1 ∧
    (watchDelete ⟨sampleCompanies, [⟨0, 7, 1, 0⟩], 1, 1⟩ 7 (.valid 2)).1.status = 404 ∧
    (watchDelete ⟨sampleCompanies, [⟨0, 7, 1, 0⟩], 1, 1⟩ 7 (.valid 2)).2 =
      ⟨sampleCompanies, [⟨0, 7, 1, 0⟩], 1, 1⟩ := by
  have h1 := (delete_removes_exactly_one_or_404 ⟨sampleCompanies, [⟨0, 7, 1, 0⟩], 1, 1⟩
    7 1 (by simp [PairUnique])).1 (by decide)
  have h2 := (delete_removes_exactly_one_or_404 ⟨sampleCompanies, [⟨0, 7, 1, 0⟩], 1, 1⟩
    7 2 (by simp [PairUnique])).2 (by decide)
  exact ⟨h1.2.1, by simpa using (h1.2.2.1).symm, h2.2.1, h2.2.2⟩

/-- One watchlist request preserves the `(user, company)` uniqueness
invariant. -/
theorem pairUnique_step (s : St) (r : Req) (h : PairUnique s.watchlist) :
    PairUnique (step s r).watchlist := by
  obtain ⟨u, act⟩ := r
  cases act with
  | list => exact h
  | add f =>
    cases hv : validateCompanyId f with
    | none => simpa [step, watchPost, hv] using h
    | some i =>
      cases hc : findCompany s.companies i with
      | none => simpa [step, watchPost, hv, hc] using h
      | some c =>
        cases hw : s.watchlist.find? (isPairOf u c.id) with
        | some e => simpa [step, watchPost, hv, hc, hw] using h
        | none =>
          have hnew : (step s ⟨u, .add f⟩).watchlist =
              s.watchlist ++ [⟨s.nextEntryId, u, c.id, s.now⟩] := by
            simp [step, watchPost, hv, hc, hw]
          rw [PairUnique, hnew, List.pairwise_append]
          refine ⟨h, List.pairwise_singleton _ _, ?_⟩
          intro a ha b hb
          simp only [List.mem_singleton] at hb
          subst hb
          rintro ⟨h1, h2⟩
          exact List.find?_eq_none.mp hw a ha (by simp [isPairOf, h1, h2])
  | remove f =>
    cases hv : validateCompanyId f with
    | none => simpa [step, watchDelete, hv] using h
    | some i =>
      cases f with
      | valid j =>
        have hj : j = i := by simpa [validateCompanyId] using hv
        subst hj
        have hnew : (step s ⟨u, .remove (.valid j)⟩).watchlist =
            s.watchlist.filter (fun e => !matchesDelete u j e) :=
          watchDelete_watchlist_valid s u j
        rw [PairUnique, hnew]
        exact List.Pairwise.filter _ h
      | missing => simp [validateCompanyId] at hv
      | invalid => simp [validateCompanyId] at hv

/-- C8: the per-pair uniqueness invariant of the watchlist store holds
after any sequence of List, Add and Remove requests from a state that
satisfies it. -/
theorem pairUnique_reachable (s : St) (reqs : List Req)
    (h : PairUnique s.watchlist) :
    PairUnique (runReqs s reqs).watchlist := by
  induction reqs generalizing s with
  | nil => exact h
  | cons r rs ih => exact ih (step s r) (pairUnique_step s r h)

/-- Witness for C8: two users add company 1, then one removes it. -/
theorem pairUnique_reachable_witness :
    PairUnique (runReqs sampleSt
      [⟨7, .add (.valid 1)⟩, ⟨8, .add (.valid 1)⟩, ⟨7, .add (.valid 1)⟩,
       ⟨7, .remove (.valid 1)⟩]).watchlist :=
  pairUnique_reachable sampleSt _ List.Pairwise.nil

/-- C9: the watchlist listing returns only the caller's entries, and no
request by one user changes another user's entries or the company table. -/
theorem user_isolation (s : St) (r : Req) (b : Nat) (hb : b ≠ r.user) :
    (∀ e ∈ watchListGet s r.user, e.userId = r.user) ∧
    (step s r).watchlist.filter (fun e => decide (e.userId = b)) =
      s.watchlist.filter (fun e => decide (e.userId = b)) ∧
    (step s r).companies = s.companies := by
  obtain ⟨u, act⟩ := r
  simp only at hb
  refine ⟨?_, ?_, ?_⟩
  · intro e he
    simp only [watchListGet] at he
    have hmem : e ∈ s.watchlist.filter (fun e => decide (e.userId = u)) :=
      (List.perm_insertionSort addedGe _).mem_iff.mp he
    exact of_decide_eq_true (List.mem_filter.mp hmem).2
  · cases act with
    | list => rfl
    | add f =>
      cases hv : validateCompanyId f with
      | none => simp [step, watchPost, hv]
      | some i =>
        cases hc : findCompany s.companies i with
        | none => simp [step, watchPost, hv, hc]
        | some c =>
          cases hw : s.watchlist.find? (isPairOf u c.id) with
          | some e => simp [step, watchPost, hv, hc, hw]
          | none =>
            have hnew : (step s ⟨u, .add f⟩).watchlist =
                s.watchlist ++ [⟨s.nextEntryId, u, c.id, s.now⟩] := by
              simp [step, watchPost, hv, hc, hw]
            rw [hnew, List.filter_append]
            have : (List.filter (fun e => decide (e.userId = b))
                [(⟨s.nextEntryId, u, c.id, s.now⟩ : WEntry)]) = [] := by
              simp [Ne.symm hb]
            rw [this, List.append_nil]
    | remove f =>
      cases hv : validateCompanyId f with
      | none => simp [step, watchDelete, hv]
      | some i =>
        cases f with
        | valid j =>
          have hj : j = i := by simpa [validateCompanyId] using hv
          subst hj
          have hnew : (step s ⟨u, .remove (.valid j)⟩).watchlist =
              s.watchlist.filter (fun e => !matchesDelete u j e) :=
            watchDelete_watchlist_valid s u j
          rw [hnew, List.filter_filter]
          refine List.filter_congr ?_
          intro a _
          cases hab : decide (a.userId = b) with
          | false => simp
          | true =>
            have hau : a.userId = b := of_decide_eq_true hab
            have : matchesDelete u j a = false := by
              simp only [matchesDelete, decide_eq_false_iff_not]
              rintro ⟨h1, _⟩
              exact hb (hau ▸ h1)
            simp [this]
        | missing => simp [validateCompanyId] at hv
        | invalid => simp [validateCompanyId] at hv
  · cases act with
    | list => rfl
    | add f =>
      simp only [step]
      unfold watchPost
      split
      · rfl
      · split
        · rfl
        · split <;> rfl
    | remove f =>
      cases f with
      | missing => rfl
      | invalid => rfl
      | valid j =>
        simp only [step]
        rw [watchDelete_snd_valid]

/-- Witness for C9: user 7 removes company 1; user 8's entry survives. -/
theorem user_isolation_witness :
    (step ⟨sampleCompanies, [⟨0, 7, 1, 0⟩, ⟨1, 8, 1, 1⟩], 2, 2⟩
        ⟨7, .remove (.valid 1)⟩).watchlist.filter (fun e => decide (e.userId = 8)) =
      [⟨1, 8, 1, 1⟩] ∧
    (step ⟨sampleCompanies, [⟨0, 7, 1, 0⟩, ⟨1, 8, 1, 1⟩], 2, 2⟩
        ⟨7, .remove (.valid 1)⟩).companies = sampleCompanies := by
  have h := user_isolation ⟨sampleCompanies, [⟨0, 7, 1, 0⟩, ⟨1, 8, 1, 1⟩], 2, 2⟩
    ⟨7, .remove (.valid 1)⟩ 8 (by decide)
  exact ⟨by rw [h.2.1]; decide, h.2.2⟩

/-! ## Importer theorems -/

/-- The 500-row buffered flush loop computes the same store as one
conflict-ignoring insert of all converted rows in order. -/
theorem importLoop_eq (rows : List Row) :
    ∀ buf store, importLoop rows buf store =
      bulkCreateIgnore store (buf ++ rows.filterMap rowToCompany) := by
  induction rows with
  | nil =>
    intro buf store
    simp [importLoop]
  | cons r rs ih =>
    intro buf store
    cases h : rowToCompany r with
    | none =>
      simp only [importLoop, h, List.filterMap_cons]
      exact ih buf store
    | some c =>
      simp only [importLoop, h, List.filterMap_cons]
      split
      · rw [ih [] (bulkCreateIgnore store (buf ++ [c])), List.nil_append,
          bulkCreateIgnore, bulkCreateIgnore, ← List.foldl_append,
          List.append_assoc, List.singleton_append]
        rfl
      · rw [ih (buf ++ [c]) store, List.append_assoc, List.singleton_append]

/-- A whole import run is one conflict-ignoring insert of the converted
rows. -/
theorem runImport_eq (rows : List Row) (store : List CompanyData) :
    runImport rows store = bulkCreateIgnore store (rows.filterMap rowToCompany) := by
  rw [runImport, importLoop_eq]
  rfl

/-- Conflict-ignoring inserts only ever add rows from the batch. -/
theorem mem_bulkCreateIgnore {c : CompanyData} (batch : List CompanyData) :
    ∀ store, c ∈ bulkCreateIgnore store batch → c ∈ store ∨ c ∈ batch := by
  induction batch with
  | nil =>
    intro store hc
    exact Or.inl hc
  | cons b bs ih =>
    intro store hc
    rcases ih (insertIgnore store b) hc with h | h
    · rw [insertIgnore] at h
      split at h
      · exact Or.inl h
      · rcases List.mem_append.mp h with h' | h'
        · exact Or.inl h'
        · have hcb : c = b := by simpa using h'
          exact Or.inr (hcb ▸ List.mem_cons_self b bs)
    · exact Or.inr (List.mem_cons_of_mem _ h)

/-- C4: every company present after an import was either already stored
or comes from a row with a non-empty `symbol`; rows with an empty
`symbol` produce no record at all; and an empty CSV `scripcode` is stored
as `none`, never as the empty string. -/
theorem importer_skips_and_nullifies (rows : List Row) (store : List CompanyData)
    (c : CompanyData) (hc : c ∈ runImport rows store) :
    (c ∈ store ∨ (c.symbol ≠ "" ∧ ∃ r ∈ rows, rowToCompany r = some c)) ∧
    (∀ r : Row, r.symbol = "" → rowToCompany r = none) ∧
    (∀ (r : Row) (d : CompanyData), rowToCompany r = some d →
      (r.scripcode = "" → d.scripcode = none) ∧ d.scripcode ≠ some "") := by
  refine ⟨?_, ?_, ?_⟩
  · rw [runImport_eq] at hc
    rcases mem_bulkCreateIgnore _ store hc with h | h
    · exact Or.inl h
    · right
      rcases List.mem_filterMap.mp h with ⟨r, hr, hrc⟩
      rw [rowToCompany] at hrc
      by_cases hs : r.symbol = ""
      · rw [if_pos hs] at hrc
        exact absurd hrc (by simp)
      · rw [if_neg hs, Option.some.injEq] at hrc
        refine ⟨?_, r, hr, by rw [rowToCompany, if_neg hs, hrc]⟩
        rw [← hrc, toCompanyData]
        exact hs
  · intro r h
    rw [rowToCompany, if_pos h]
  · intro r d h
    rw [rowToCompany] at h
    by_cases hs : r.symbol = ""
    · rw [if_pos hs] at h
      exact absurd h (by simp)
    · rw [if_neg hs, Option.some.injEq] at h
      subst h
      rw [toCompanyData]
      by_cases hsc : r.scripcode = ""
      · simp [hsc]
      · simp [hsc]

/-- Witness for C4 at the specification's example CSV: the Cipla record
is imported and attributed to its row. -/
theorem importer_skips_and_nullifies_witness :
    (⟨"Cipla Ltd", "CIPLA", some "500087"⟩ : CompanyData) ∈
      runImport [⟨"Cipla Ltd", "CIPLA", "500087"⟩,
        ⟨"Reliance Industries", "RELIANCE", "500325"⟩, ⟨"NoSymbol", "", ""⟩] [] ∧
    ((⟨"Cipla Ltd", "CIPLA", some "500087"⟩ : CompanyData) ∈ ([] : List CompanyData) ∨
      ((⟨"Cipla Ltd", "CIPLA", some "500087"⟩ : CompanyData).symbol ≠ "" ∧
        ∃ r ∈ [(⟨"Cipla Ltd", "CIPLA", "500087"⟩ : Row),
          ⟨"Reliance Industries", "RELIANCE", "500325"⟩, ⟨"NoSymbol", "", ""⟩],
          rowToCompany r = some ⟨"Cipla Ltd", "CIPLA", some "500087"⟩)) := by
  refine ⟨by decide, ?_⟩
  exact (importer_skips_and_nullifies _ [] _ (by decide)).1

/-- Nothing conflicts with an empty store. -/
theorem conflicts_nil (c : CompanyData) : conflicts [] c = false := by
  rw [conflicts]
  cases c.scripcode <;> rfl

/-- A record already present always conflicts (on its own symbol). -/
theorem conflicts_of_mem {c : CompanyData} {store : List CompanyData}
    (h : c ∈ store) : conflicts store c = true := by
  rw [conflicts, Bool.or_eq_true]
  exact Or.inl (List.any_eq_true.mpr ⟨c, h, by simp⟩)

/-- Appending a non-clashing record to the store does not create a
conflict for a record that had none. -/
theorem conflicts_append_single (store : List CompanyData) (c d : CompanyData)
    (h1 : conflicts store d = false)
    (h2 : c.symbol ≠ d.symbol)
    (h3 : ∀ sc, c.scripcode = some sc → d.scripcode ≠ some sc) :
    conflicts (store ++ [c]) d = false := by
  rw [conflicts] at h1 ⊢
  rw [Bool.or_eq_false_iff] at h1 ⊢
  obtain ⟨h1a, h1b⟩ := h1
  constructor
  · rw [List.any_append, Bool.or_eq_false_iff]
    exact ⟨h1a, by simp [h2]⟩
  · cases hdsc : d.scripcode with
    | none => rfl
    | some sc =>
      rw [hdsc] at h1b
      dsimp only at h1b ⊢
      rw [List.any_append, Bool.or_eq_false_iff]
      refine ⟨h1b, ?_⟩
      simp only [List.any_cons, List.any_nil, Bool.or_false]
      by_cases hcsc : c.scripcode = some sc
      · exact absurd hdsc (h3 sc hcsc)
      · simp [hcsc]

/-- A batch that conflicts nowhere, internally or with the store, is
inserted in full. -/
theorem bulkCreateIgnore_no_conflict (batch : List CompanyData) :
    ∀ store, (∀ c ∈ batch, conflicts store c = false) →
    batch.Pairwise (fun a b => a.symbol ≠ b.symbol ∧
      ∀ sc, a.scripcode = some sc → b.scripcode ≠ some sc) →
    bulkCreateIgnore store batch = store ++ batch := by
  induction batch with
  | nil =>
    intro store _ _
    simp [bulkCreateIgnore]
  | cons c cs ih =>
    intro store hnc hp
    rcases List.pairwise_cons.mp hp with ⟨hc, hcs⟩
    have h1 : insertIgnore store c = store ++ [c] := by
      rw [insertIgnore, hnc c (List.mem_cons_self c cs)]
      simp
    rw [bulkCreateIgnore, List.foldl_cons, h1]
    have hcs' : ∀ d ∈ cs, conflicts (store ++ [c]) d = false := fun d hd =>
      conflicts_append_single store c d (hnc d (List.mem_cons_of_mem c hd))
        (hc d hd).1 (hc d hd).2
    show bulkCreateIgnore (store ++ [c]) cs = store ++ c :: cs
    rw [ih (store ++ [c]) hcs' hcs, List.append_assoc, List.singleton_append]

/-- A batch that conflicts everywhere is dropped in full. -/
theorem bulkCreateIgnore_all_conflict (batch : List CompanyData) :
    ∀ store, (∀ c ∈ batch, conflicts store c = true) →
    bulkCreateIgnore store batch = store := by
  induction batch with
  | nil =>
    intro store _
    rfl
  | cons c cs ih =>
    intro store h
    have h1 : insertIgnore store c = store := by
      rw [insertIgnore, if_pos (h c (List.mem_cons_self c cs))]
    rw [bulkCreateIgnore, List.foldl_cons, h1]
    exact ih store (fun d hd => h d (List.mem_cons_of_mem c hd))

/-- When no row is skipped, conversion is a plain map. -/
theorem filterMap_rowToCompany_eq_map {rows : List Row}
    (h : ∀ r ∈ rows, r.symbol ≠ "") :
    rows.filterMap rowToCompany = rows.map toCompanyData := by
  induction rows with
  | nil => rfl
  | cons r rs ih =>
    have hr : rowToCompany r = some (toCompanyData r) := by
      rw [rowToCompany, if_neg (h r (List.mem_cons_self r rs))]
    simp only [List.filterMap_cons, hr, List.map_cons]
    rw [ih (fun d hd => h d (List.mem_cons_of_mem r hd))]

/-- Counterexample to C5 as stated: two rows with distinct non-empty
symbols but an equal non-empty `scripcode` import as one company row,
not two — the `scripcode` uniqueness constraint also drops rows. -/
theorem import_distinct_symbols_insufficient :
    ("AAA" : String) ≠ "" ∧ ("BBB" : String) ≠ "" ∧ ("AAA" : String) ≠ "BBB" ∧
    (runImport [⟨"Alpha", "AAA", "X"⟩, ⟨"Beta", "BBB", "X"⟩] []).length = 1 ∧
    [(⟨"Alpha", "AAA", "X"⟩ : Row), ⟨"Beta", "BBB", "X"⟩].length = 2 := by
  decide

/-- C5 (amended): importing into an empty store a CSV whose rows have
pairwise-distinct non-empty symbols and pairwise-distinct scripcodes
among the non-empty ones yields exactly N rows, and re-importing the same
file leaves the store unchanged. -/
theorem import_distinct_rows_idempotent (rows : List Row)
    (hsym : ∀ r ∈ rows, r.symbol ≠ "")
    (hdist : rows.Pairwise (fun a b => a.symbol ≠ b.symbol))
    (hscrip : rows.Pairwise (fun a b =>
      a.scripcode = "" ∨ b.scripcode = "" ∨ a.scripcode ≠ b.scripcode)) :
    (runImport rows []).length = rows.length ∧
    runImport rows (runImport rows []) = runImport rows [] := by
  have hmap := filterMap_rowToCompany_eq_map hsym
  have hpair : (rows.map toCompanyData).Pairwise (fun a b => a.symbol ≠ b.symbol ∧
      ∀ sc, a.scripcode = some sc → b.scripcode ≠ some sc) := by
    rw [List.pairwise_map]
    refine (hdist.and hscrip).imp ?_
    rintro a b ⟨h1, h2⟩
    refine ⟨by simpa [toCompanyData] using h1, ?_⟩
    intro sc hsc
    rw [toCompanyData] at hsc
    by_cases ha : a.scripcode = ""
    · rw [if_pos ha] at hsc
      exact absurd hsc (by simp)
    · rw [if_neg ha, Option.some.injEq] at hsc
      subst hsc
      by_cases hbs : b.scripcode = ""
      · simp [toCompanyData, hbs]
      · simp only [toCompanyData, if_neg hbs, ne_eq, Option.some.injEq]
        rcases h2 with h2 | h2 | h2
        · exact absurd h2 ha
        · exact absurd h2 hbs
        · exact fun he => h2 he.symm
  have hfirst : runImport rows [] = rows.map toCompanyData := by
    rw [runImport_eq, hmap,
      bulkCreateIgnore_no_conflict _ [] (fun c _ => conflicts_nil c) hpair,
      List.nil_append]
  refine ⟨by rw [hfirst, List.length_map], ?_⟩
  rw [runImport_eq, hmap, hfirst]
  exact bulkCreateIgnore_all_conflict _ _ (fun c hc => conflicts_of_mem hc)

/-- Witness for the amended C5 at a three-row CSV (one row with an empty
scripcode). -/
theorem import_distinct_rows_idempotent_witness :
    (runImport [⟨"Cipla Ltd", "CIPLA", "500087"⟩,
      ⟨"Reliance Industries", "RELIANCE", "500325"⟩,
      ⟨"NoScrip", "NS", ""⟩] []).length = 3 ∧
    runImport [⟨"Cipla Ltd", "CIPLA", "500087"⟩,
      ⟨"Reliance Industries", "RELIANCE", "500325"⟩,
      ⟨"NoScrip", "NS", ""⟩]
      (runImport [⟨"Cipla Ltd", "CIPLA", "500087"⟩,
        ⟨"Reliance Industries", "RELIANCE", "500325"⟩,
        ⟨"NoScrip", "NS", ""⟩] []) =
      runImport [⟨"Cipla Ltd", "CIPLA", "500087"⟩,
        ⟨"Reliance Industries", "RELIANCE", "500325"⟩,
        ⟨"NoScrip", "NS", ""⟩] [] := by
  have h := import_distinct_rows_idempotent
    [⟨"Cipla Ltd", "CIPLA", "500087"⟩,
     ⟨"Reliance Industries", "RELIANCE", "500325"⟩,
     ⟨"NoScrip", "NS", ""⟩] (by decide) (by decide) (by decide)
  exact ⟨by rw [h.1]; rfl, h.2⟩

end TradersPortal
